import Mathlib

/-!
Verification of the rapidreport repository's content-generation pipeline
against its natural-language specification.  All definitions are shallow
embeddings of the Python source files under `app/`:

* `app/linkedin.py`  — stats/week CRUD, recyclable-post query, draft
  parsing (`_parse_drafts`) and the weekly batch orchestrator;
* `app/news_scraper.py` — RSS normalisation, merge/dedupe/sort and the
  daily digest orchestrator;
* `app/report.py` — the markdown-to-HTML renderer;
* `app/web.py` — the HTTP post mutation endpoints (approve / reject /
  update / assign / recycle).

External collaborators (the LLM call itself, the RSS fetcher, the SQL
engine) are modelled as explicit oracle parameters / explicit state, as
the spec treats them as out of scope; every piece of repository logic
(parsing, filtering, branching, state updates) is embedded faithfully.
-/

namespace RapidReport

/-! ## Python `json` values

`_parse_drafts` (app/linkedin.py) calls `json.loads`.  We embed JSON
values and a recursive-descent parser matching Python's `json.loads`
semantics: JSON whitespace is space/tab/newline/carriage-return, numbers
keep strict JSON grammar (plus the CPython extensions `NaN`,
`Infinity`, `-Infinity`) and are kept as raw literals (no numeric
semantics is needed by any claim), duplicate object keys keep the first
position with the last value (CPython `dict` semantics), and strings
support the JSON escapes. -/

def lbrace : Char := Char.ofNat 123

def rbrace : Char := Char.ofNat 125

inductive Json where
  | null : Json
  | bool : Bool → Json
  | num : String → Json
  | str : String → Json
  | arr : List Json → Json
  | obj : List (String × Json) → Json

def jsonWs (c : Char) : Bool := c = ' ' || c = '\t' || c = '\n' || c = '\r'

def skipWs : List Char → List Char
  | [] => []
  | c :: rest => if jsonWs c then skipWs rest else c :: rest

def hexVal (c : Char) : Option Nat :=
  if c.isDigit then some (c.toNat - 48)
  else if 'a' ≤ c ∧ c ≤ 'f' then some (c.toNat - 87)
  else if 'A' ≤ c ∧ c ≤ 'F' then some (c.toNat - 55)
  else none

/-- Body of a JSON string after the opening quote; returns the decoded
string and the remaining input after the closing quote. -/
def parseStrAux : Nat → List Char → List Char → Option (String × List Char)
  | 0, _, _ => none
  | fuel+1, acc, l =>
    match l with
    | [] => none
    | c :: rest =>
      if c = '"' then some (⟨acc.reverse⟩, rest)
      else if c = '\\' then
        match rest with
        | [] => none
        | e :: rest2 =>
          if e = '"' then parseStrAux fuel ('"' :: acc) rest2
          else if e = '\\' then parseStrAux fuel ('\\' :: acc) rest2
          else if e = '/' then parseStrAux fuel ('/' :: acc) rest2
          else if e = 'b' then parseStrAux fuel (Char.ofNat 8 :: acc) rest2
          else if e = 'f' then parseStrAux fuel (Char.ofNat 12 :: acc) rest2
          else if e = 'n' then parseStrAux fuel ('\n' :: acc) rest2
          else if e = 'r' then parseStrAux fuel ('\r' :: acc) rest2
          else if e = 't' then parseStrAux fuel ('\t' :: acc) rest2
          else if e = 'u' then
            match rest2 with
            | h1 :: h2 :: h3 :: h4 :: rest3 =>
              match hexVal h1, hexVal h2, hexVal h3, hexVal h4 with
              | some a, some b, some c2, some d =>
                parseStrAux fuel (Char.ofNat (((a * 16 + b) * 16 + c2) * 16 + d) :: acc) rest3
              | _, _, _, _ => none
            | _ => none
          else none
      else if c.toNat < 32 then none
      else parseStrAux fuel (c :: acc) rest

def isPre (pre : List Char) (l : List Char) : Bool := pre.isPrefixOf l

/-- JSON integer part: `0` or a nonzero digit followed by digits. -/
def parseIntPart (l : List Char) : Option (List Char × List Char) :=
  match l with
  | [] => none
  | c :: rest =>
    if c = '0' then some ([c], rest)
    else if c.isDigit then
      let ds := rest.takeWhile Char.isDigit
      some (c :: ds, rest.drop ds.length)
    else none

def parseFracPart (l : List Char) : List Char × List Char :=
  match l with
  | '.' :: rest =>
    let ds := rest.takeWhile Char.isDigit
    if ds = [] then ([], l) else ('.' :: ds, rest.drop ds.length)
  | _ => ([], l)

def parseExpPart (l : List Char) : List Char × List Char :=
  match l with
  | e :: rest =>
    if e = 'e' ∨ e = 'E' then
      match rest with
      | s :: rest2 =>
        if s = '+' ∨ s = '-' then
          let ds := rest2.takeWhile Char.isDigit
          if ds = [] then ([], e :: rest) else (e :: s :: ds, rest2.drop ds.length)
        else
          let ds := rest.takeWhile Char.isDigit
          if ds = [] then ([], e :: rest) else (e :: ds, rest.drop ds.length)
      | [] => ([], e :: rest)
    else ([], e :: rest)
  | [] => ([], [])

def parseNumber (l : List Char) : Option (Json × List Char) :=
  let p : List Char × List Char :=
    match l with
    | c :: rest => if c = '-' then ([c], rest) else ([], l)
    | [] => ([], l)
  match parseIntPart p.2 with
  | none => none
  | some (ip, l2) =>
    let fp := parseFracPart l2
    let ep := parseExpPart fp.2
    some (Json.num ⟨p.1 ++ ip ++ fp.1 ++ ep.1⟩, ep.2)

/-- CPython `dict` insertion: first position kept, last value wins. -/
def insertKV : List (String × Json) → String → Json → List (String × Json)
  | [], k, v => [(k, v)]
  | (k0, v0) :: rest, k, v =>
    if k0 = k then (k0, v) :: rest else (k0, v0) :: insertKV rest k v

mutual

def parseValue : Nat → List Char → Option (Json × List Char)
  | 0, _ => none
  | fuel+1, l =>
    match l with
    | [] => none
    | c :: rest =>
      if c = lbrace then parseObjBody fuel (skipWs rest)
      else if c = '[' then parseArrBody fuel (skipWs rest)
      else if c = '"' then
        match parseStrAux rest.length.succ [] rest with
        | some (s, r) => some (Json.str s, r)
        | none => none
      else if isPre (("true").data) l then some (Json.bool true, l.drop 4)
      else if isPre (("false").data) l then some (Json.bool false, l.drop 5)
      else if isPre (("null").data) l then some (Json.null, l.drop 4)
      else if isPre (("NaN").data) l then some (Json.num ("NaN"), l.drop 3)
      else if isPre (("Infinity").data) l then some (Json.num ("Infinity"), l.drop 8)
      else if isPre (("-Infinity").data) l then some (Json.num ("-Infinity"), l.drop 9)
      else parseNumber l

def parseObjBody : Nat → List Char → Option (Json × List Char)
  | 0, _ => none
  | fuel+1, l =>
    match l with
    | [] => none
    | c :: rest =>
      if c = rbrace then some (Json.obj [], rest)
      else
        match parsePairs fuel (c :: rest) [] with
        | some (kvs, r) => some (Json.obj kvs, r)
        | none => none

def parsePairs : Nat → List Char → List (String × Json) → Option (List (String × Json) × List Char)
  | 0, _, _ => none
  | fuel+1, l, acc =>
    match l with
    | [] => none
    | c :: rest =>
      if c = '"' then
        match parseStrAux rest.length.succ [] rest with
        | some (key, r1) =>
          match skipWs r1 with
          | ':' :: r2 =>
            match parseValue fuel (skipWs r2) with
            | some (v, r3) =>
              match skipWs r3 with
              | d :: r4 =>
                if d = ',' then parsePairs fuel (skipWs r4) (insertKV acc key v)
                else if d = rbrace then some (insertKV acc key v, r4)
                else none
              | [] => none
            | none => none
          | _ => none
        | none => none
      else none

def parseArrBody : Nat → List Char → Option (Json × List Char)
  | 0, _ => none
  | fuel+1, l =>
    match l with
    | [] => none
    | c :: rest =>
      if c = ']' then some (Json.arr [], rest)
      else
        match parseElems fuel (c :: rest) [] with
        | some (xs, r) => some (Json.arr xs, r)
        | none => none

def parseElems : Nat → List Char → List Json → Option (List Json × List Char)
  | 0, _, _ => none
  | fuel+1, l, acc =>
    match parseValue fuel l with
    | some (v, r) =>
      match skipWs r with
      | d :: r2 =>
        if d = ',' then parseElems fuel (skipWs r2) (v :: acc)
        else if d = ']' then some ((v :: acc).reverse, r2)
        else none
      | [] => none
    | none => none

end

/-- Embedding of Python `json.loads`: parse one JSON value surrounded by
optional whitespace; anything else raises `JSONDecodeError` (modelled as
`Except.error ()`). -/
def json_loads (s : String) : Except Unit Json :=
  match parseValue (4 * s.data.length + 8) (skipWs s.data) with
  | some (v, r) => if skipWs r = [] then Except.ok v else Except.error ()
  | none => Except.error ()

/-- Python `data.get(key, default)` on the parsed object. -/
def dictGet (kvs : List (String × Json)) (k : String) (dflt : Json) : Json :=
  match kvs.find? (fun p => p.1 == k) with
  | some p => p.2
  | none => dflt

/-- Prefix of `l` ending at the last `'\x7d'` of `l`, if `l` holds one.
Used to model the greedy regex `\x7b.*\x7d` (`re.DOTALL`). -/
def takeUpToLastClose : List Char → Option (List Char)
  | [] => none
  | c :: rest =>
    match takeUpToLastClose rest with
    | some t => some (c :: t)
    | none => if c = rbrace then some [rbrace] else none

/-- `re.search(r'\x7b.*\x7d', text, re.DOTALL)`: leftmost `'\x7b'` that has
a `'\x7d'` somewhere after it, greedily out to the last `'\x7d'`. -/
def braceSpanList : List Char → Option (List Char)
  | [] => none
  | c :: rest =>
    if c = lbrace then
      match takeUpToLastClose rest with
      | some t => some (lbrace :: t)
      | none => braceSpanList rest
    else braceSpanList rest

def braceSpan (s : String) : Option String := (braceSpanList s.data).map fun l => ⟨l⟩

/-- The `re.search` retry inside `_parse_drafts`: parse the extracted
brace span; on success return its `"drafts"` value, on failure fall
through to `[text]`. -/
def parse_drafts_retry (text sub : String) : Except String Json :=
  match json_loads sub with
  | Except.ok (Json.obj kvs) => Except.ok (dictGet kvs ("drafts") (Json.arr []))
  | Except.ok _ => Except.error ("AttributeError")
  | Except.error _ => Except.ok (Json.arr [Json.str text])

/-- Embedding of `_parse_drafts` (app/linkedin.py lines 329-341).  The
returned Python value is a `Json` value; a raised exception is
`Except.error` with the exception name.  `data.get("drafts", [])` on a
non-`dict` raises `AttributeError`, which the `except
json.JSONDecodeError` handler does not catch. -/
def parse_drafts (text : String) : Except String Json :=
  match json_loads text with
  | Except.ok (Json.obj kvs) => Except.ok (dictGet kvs ("drafts") (Json.arr []))
  | Except.ok _ => Except.error ("AttributeError")
  | Except.error _ =>
    match braceSpan text with
    | some sub => parse_drafts_retry text sub
    | none => Except.ok (Json.arr [Json.str text])

/-! ### Shape lemmas: a parse of input beginning with `'\x7b'` can only
produce a JSON object, so the brace-span retry never hits the
`AttributeError` path. -/

theorem braceSpanList_shape (l : List Char) :
    ∀ s, braceSpanList l = some s → ∃ t, s = lbrace :: t := by
  induction l with
  | nil => intro s h; simp [braceSpanList] at h
  | cons c rest ih =>
    intro s h
    by_cases hc : c = lbrace
    · simp only [braceSpanList, if_pos hc] at h
      cases htc : takeUpToLastClose rest with
      | some t => rw [htc] at h; exact ⟨t, (Option.some.inj h).symm⟩
      | none => rw [htc] at h; exact ih s h
    · simp only [braceSpanList, if_neg hc] at h
      exact ih s h

theorem braceSpan_shape (s sub : String) (h : braceSpan s = some sub) :
    ∃ t, sub = String.mk (lbrace :: t) := by
  unfold braceSpan at h
  cases hb : braceSpanList s.data with
  | none => rw [hb] at h; simp at h
  | some l =>
    rw [hb] at h
    obtain ⟨t, ht⟩ := braceSpanList_shape _ _ hb
    simp only [Option.map_some', Option.some.injEq] at h
    exact ⟨t, by rw [← h, ht]⟩

theorem parseObjBody_shape (fuel : Nat) (l : List Char) (v : Json) (r : List Char)
    (h : parseObjBody fuel l = some (v, r)) : ∃ kvs, v = Json.obj kvs := by
  unfold parseObjBody at h
  cases fuel with
  | zero => simp at h
  | succ f =>
    cases l with
    | nil => simp at h
    | cons c rest =>
      simp only at h
      split at h
      · exact ⟨[], by cases h; rfl⟩
      · cases hp : parsePairs f (c :: rest) [] with
        | none => rw [hp] at h; exact Option.noConfusion h
        | some p => rw [hp] at h; exact ⟨p.1, by cases h; rfl⟩

theorem parseValue_lbrace_shape (fuel : Nat) (rest : List Char) (v : Json) (r : List Char)
    (h : parseValue fuel (lbrace :: rest) = some (v, r)) : ∃ kvs, v = Json.obj kvs := by
  unfold parseValue at h
  cases fuel with
  | zero => simp at h
  | succ f =>
    simp only [if_pos rfl] at h
    exact parseObjBody_shape f _ v r h

theorem jsonWs_lbrace : jsonWs lbrace = false := by decide

theorem skipWs_cons_lbrace (t : List Char) : skipWs (lbrace :: t) = lbrace :: t := by
  simp [skipWs, jsonWs_lbrace]

theorem json_loads_lbrace_shape (t : List Char) (v : Json)
    (h : json_loads ⟨lbrace :: t⟩ = Except.ok v) : ∃ kvs, v = Json.obj kvs := by
  unfold json_loads at h
  rw [show (String.mk (lbrace :: t)).data = lbrace :: t from rfl, skipWs_cons_lbrace] at h
  cases hpv : parseValue (4 * (lbrace :: t).length + 8) (lbrace :: t) with
  | none => simp only [hpv] at h; exact Except.noConfusion h
  | some p =>
    obtain ⟨pv, pr⟩ := p
    simp only [hpv] at h
    by_cases he : skipWs pr = []
    · rw [if_pos he] at h
      simp only [Except.ok.injEq] at h
      subst h
      exact parseValue_lbrace_shape _ _ _ _ hpv
    · rw [if_neg he] at h; simp at h

/-- C1 counterexample: the claim "for every input string, `_parse_drafts`
returns a list of one or more strings and never raises" is false on the
code.  `json.loads("42")` succeeds with the non-object `42`, so
`data.get("drafts", [])` raises `AttributeError` (not caught by the
`except json.JSONDecodeError` handler); on a JSON object lacking a
`"drafts"` key, `_parse_drafts` returns the empty list; and on invalid
JSON whose brace span parses to an object with a non-list `"drafts"`
value, it returns that non-list value (here the number `5`). -/
theorem parse_drafts_claim_false :
    parse_drafts ("42") = Except.error ("AttributeError") ∧
    parse_drafts ("\x7b\"a\": 1\x7d") = Except.ok (Json.arr []) ∧
    parse_drafts ("x\x7b\"drafts\": 5\x7d") = Except.ok (Json.num ("5")) :=
  ⟨rfl, rfl, rfl⟩

/-- C1 (amended): on input that is not top-level-valid JSON,
`_parse_drafts` never raises (first conjunct), and more precisely: with
no brace-delimited span it returns the one-element list `[text]`
(second conjunct); when the span parses as a JSON object it returns that
object's `"drafts"` value, defaulting to the empty list — a value that
may be empty, contain non-strings, or not be a list at all (third
conjunct); when the span fails to parse it returns `[text]` (fourth
conjunct).  When the whole input parses as a JSON object it returns the
object's `"drafts"` value with the same caveats (fifth conjunct); when
the whole input parses as non-object JSON the call raises
`AttributeError` (sixth conjunct). -/
theorem parse_drafts_amended :
    (∀ text : String, json_loads text = Except.error () →
      ∃ v, parse_drafts text = Except.ok v) ∧
    (∀ text : String, json_loads text = Except.error () → braceSpan text = none →
      parse_drafts text = Except.ok (Json.arr [Json.str text])) ∧
    (∀ (text sub : String) (kvs : List (String × Json)),
      json_loads text = Except.error () → braceSpan text = some sub →
      json_loads sub = Except.ok (Json.obj kvs) →
      parse_drafts text = Except.ok (dictGet kvs ("drafts") (Json.arr []))) ∧
    (∀ (text sub : String), json_loads text = Except.error () →
      braceSpan text = some sub → json_loads sub = Except.error () →
      parse_drafts text = Except.ok (Json.arr [Json.str text])) ∧
    (∀ text kvs, json_loads text = Except.ok (Json.obj kvs) →
      parse_drafts text = Except.ok (dictGet kvs ("drafts") (Json.arr []))) ∧
    (∀ text v, json_loads text = Except.ok v → (∀ kvs, v ≠ Json.obj kvs) →
      parse_drafts text = Except.error ("AttributeError")) := by
  refine ⟨?_, ?_, ?_, ?_, ?_, ?_⟩
  · intro text herr
    cases hbs : braceSpan text with
    | none =>
      refine ⟨Json.arr [Json.str text], ?_⟩
      unfold parse_drafts
      rw [herr, hbs]
    | some sub =>
      obtain ⟨t, ht⟩ := braceSpan_shape text sub hbs
      have hstep : parse_drafts text = parse_drafts_retry text sub := by
        unfold parse_drafts
        rw [herr, hbs]
      cases hjl : json_loads sub with
      | error e =>
        refine ⟨Json.arr [Json.str text], ?_⟩
        rw [hstep]
        unfold parse_drafts_retry
        rw [hjl]
      | ok v =>
        obtain ⟨kvs, hk⟩ := json_loads_lbrace_shape t v (ht ▸ hjl)
        subst hk
        refine ⟨dictGet kvs ("drafts") (Json.arr []), ?_⟩
        rw [hstep]
        unfold parse_drafts_retry
        rw [hjl]
  · intro text herr hbs
    unfold parse_drafts
    rw [herr, hbs]
  · intro text sub kvs herr hbs hsub
    have hstep : parse_drafts text = parse_drafts_retry text sub := by
      unfold parse_drafts
      rw [herr, hbs]
    rw [hstep]
    unfold parse_drafts_retry
    rw [hsub]
  · intro text sub herr hbs hsub
    have hstep : parse_drafts text = parse_drafts_retry text sub := by
      unfold parse_drafts
      rw [herr, hbs]
    rw [hstep]
    unfold parse_drafts_retry
    rw [hsub]
  · intro text kvs hok
    unfold parse_drafts
    rw [hok]
  · intro text v hok hnv
    unfold parse_drafts
    rw [hok]
    cases v with
    | obj kvs => exact absurd rfl (hnv kvs)
    | null => rfl
    | bool b => rfl
    | num n => rfl
    | str s => rfl
    | arr xs => rfl

/-- C1 amended-claim witness at a concrete non-JSON input. -/
theorem parse_drafts_amended_witness :
    parse_drafts ("no json here") = Except.ok (Json.arr [Json.str ("no json here")]) :=
  parse_drafts_amended.2.1 ("no json here") rfl rfl

/-- C2: `_parse_drafts` on strict JSON returns exactly the drafts list;
the same object embedded in prose yields the same three drafts via the
brace-span retry; non-JSON prose with no brace span comes back as the
one-element list holding the raw text. -/
theorem parse_drafts_examples :
    parse_drafts ("\x7b\"drafts\":[\"a\",\"b\",\"c\"]\x7d") =
      Except.ok (Json.arr [Json.str ("a"), Json.str ("b"), Json.str ("c")]) ∧
    parse_drafts ("Sure, here you go: \x7b\"drafts\":[\"a\",\"b\",\"c\"]\x7d Hope this helps!") =
      Except.ok (Json.arr [Json.str ("a"), Json.str ("b"), Json.str ("c")]) ∧
    parse_drafts ("Sorry, I cannot produce JSON today.") =
      Except.ok (Json.arr [Json.str ("Sorry, I cannot produce JSON today.")]) :=
  ⟨rfl, rfl, rfl⟩

/-! ## News scraper (app/news_scraper.py)

The RSS collaborator is out of scope: a `Source` carries its name and
the outcome of `feedparser.parse` — `none` models the per-source
`except Exception` path that contributes zero articles, `some entries`
the parsed feed entries with their optional fields.  Everything from the
normalisation loop onwards is repository logic and is embedded from the
source. -/

structure Entry where
  title : Option String := none
  link : Option String := none
  published : Option String := none
  updated : Option String := none
  summary : Option String := none
  description : Option String := none
deriving DecidableEq

structure Article where
  title : String
  url : String
  source : String
  published_date : String
  summary : String
deriving DecidableEq

structure Source where
  name : String
  fetched : Option (List Entry)
deriving DecidableEq

/-- Python string slice `s[:n]`. -/
def pyTake (s : String) (n : Nat) : String := ⟨s.data.take n⟩

/-- Embedding of `_fetch_single_feed` (app/news_scraper.py lines 22-50):
cap at 15 entries, normalise `title`/`link`/`published|updated`/
`summary|description` with the source's defaults, truncate summaries to
500 characters; a failed fetch yields `[]`. -/
def fetch_single_feed (src : Source) : List Article :=
  match src.fetched with
  | none => []
  | some entries =>
    (entries.take 15).map fun e =>
      { title := e.title.getD ("Untitled")
        url := e.link.getD ("")
        source := src.name
        published_date :=
          match e.published with
          | some p => p
          | none => e.updated.getD ("")
        summary :=
          match e.summary with
          | some s => pyTake s 500
          | none => pyTake (e.description.getD ("")) 500 }

/-- The merge loop of `fetch_all_news`: keep an article only if its url
is nonempty and unseen, recording seen urls. -/
def dedupeByUrl : List Article → List String → List Article
  | [], _ => []
  | a :: rest, seen =>
    if a.url ≠ ("") ∧ a.url ∉ seen then a :: dedupeByUrl rest (a.url :: seen)
    else dedupeByUrl rest seen

/-- Stable descending insertion by the raw `published_date` string.
CPython's `list.sort(key=..., reverse=True)` is a stable sort whose
`reverse` flag does not reorder equal keys; stability plus the total
order on keys determines the output uniquely, so this insertion sort
computes exactly the same list. -/
def insertByDateDesc (a : Article) : List Article → List Article
  | [] => [a]
  | b :: rest =>
    if a.published_date < b.published_date then b :: insertByDateDesc a rest
    else a :: b :: rest

def sortByDateDesc : List Article → List Article
  | [] => []
  | a :: rest => insertByDateDesc a (sortByDateDesc rest)

/-- Embedding of `fetch_all_news` (app/news_scraper.py lines 53-67). -/
def fetch_all_news (sources : List Source) : List Article :=
  sortByDateDesc (dedupeByUrl ((sources.map fetch_single_feed).flatten) [])

structure KeyStat where
  stat : String
  source : String
  url : String
deriving DecidableEq

structure SummariseResult where
  summary : String
  key_stats : List KeyStat
  post_angles : List String
deriving DecidableEq

structure NewsDigest where
  date : Nat
  raw_articles : List Article
  summary : String
  key_stats : List KeyStat
  post_angles : List String
  article_count : Nat
deriving DecidableEq

/-- The news environment: the RSS sources' fetch outcomes and the LLM
summarisation collaborator (LLM call plus its tolerant parse, both out
of scope for the digest claims). -/
structure NewsEnv where
  sources : List Source
  summarise : List Article → SummariseResult

structure NewsDB where
  digests : List NewsDigest
deriving DecidableEq

/-- `summarise_news` (app/news_scraper.py lines 70-109): the
empty-article early return is repository logic; the LLM call is the
`summarise` oracle. -/
def summarise_news (env : NewsEnv) (articles : List Article) : SummariseResult :=
  if articles.isEmpty then
    { summary := ("No articles found today."), key_stats := [], post_angles := [] }
  else env.summarise articles

/-- The `NewsDigest` row built by `run_daily_digest` when no digest for
today exists. -/
def build_digest (env : NewsEnv) (today : Nat) : NewsDigest :=
  let articles := fetch_all_news env.sources
  { date := today
    raw_articles := articles
    summary := (summarise_news env articles).summary
    key_stats := (summarise_news env articles).key_stats
    post_angles := (summarise_news env articles).post_angles
    article_count := articles.length }

/-- Embedding of `run_daily_digest` (app/news_scraper.py lines 112-142):
if a digest for today already exists, return it without writing;
otherwise fetch, summarise, and append exactly one new row. -/
def run_daily_digest (env : NewsEnv) (today : Nat) (db : NewsDB) : NewsDB × NewsDigest :=
  match db.digests.find? (fun d => d.date == today) with
  | some existing => (db, existing)
  | none =>
    ({ digests := db.digests ++ [build_digest env today] }, build_digest env today)

theorem find?_append_of_none {α : Type} (p : α → Bool) (l1 l2 : List α)
    (h : l1.find? p = none) : (l1 ++ l2).find? p = l2.find? p := by
  induction l1 with
  | nil => simp
  | cons a t ih =>
    by_cases hp : p a
    · rw [List.find?_cons_of_pos _ hp] at h
      exact Option.noConfusion h
    · rw [List.find?_cons_of_neg _ hp] at h
      rw [List.cons_append, List.find?_cons_of_neg _ hp]
      exact ih h

/-- C5: calling the daily digest builder twice for the same calendar
date returns the already-existing record on the second call, creates no
second `NewsDigest` row, and performs no writes: the second run maps the
post-first-run state to exactly that state paired with the first run's
record. -/
theorem run_daily_digest_idempotent (env : NewsEnv) (today : Nat) (db : NewsDB) :
    run_daily_digest env today (run_daily_digest env today db).1 =
      ((run_daily_digest env today db).1, (run_daily_digest env today db).2) := by
  cases hf : db.digests.find? (fun d => d.date == today) with
  | some existing =>
    have h1 : run_daily_digest env today db = (db, existing) := by
      unfold run_daily_digest; rw [hf]
    rw [h1]
    unfold run_daily_digest; rw [hf]
  | none =>
    have h1 : run_daily_digest env today db =
        ({ digests := db.digests ++ [build_digest env today] }, build_digest env today) := by
      unfold run_daily_digest; rw [hf]
    have hf2 : (db.digests ++ [build_digest env today]).find? (fun d => d.date == today) =
        some (build_digest env today) := by
      rw [find?_append_of_none _ _ _ hf]
      simp [List.find?, build_digest]
    rw [h1]
    unfold run_daily_digest
    rw [hf2]

theorem find?_cons_false {α : Type} (p : α → Bool) (x : α) (l : List α)
    (hx : p x = false) : (x :: l).find? p = l.find? p := by
  simp [List.find?, hx]

theorem insertByDateDesc_perm (a : Article) (l : List Article) :
    List.Perm (insertByDateDesc a l) (a :: l) := by
  induction l with
  | nil => exact List.Perm.refl _
  | cons b rest ih =>
    by_cases hc : a.published_date < b.published_date
    · simp only [insertByDateDesc, if_pos hc]
      exact (ih.cons b).trans (List.Perm.swap a b rest)
    · simp only [insertByDateDesc, if_neg hc]
      exact List.Perm.refl _

theorem sortByDateDesc_perm (l : List Article) :
    List.Perm (sortByDateDesc l) l := by
  induction l with
  | nil => exact List.Perm.refl _
  | cons a rest ih =>
    exact (insertByDateDesc_perm a (sortByDateDesc rest)).trans (ih.cons a)

/-- Every article kept by the merge loop has a nonempty url outside the
seen set, and is the first article bearing that url in the incoming
(source-ordered) stream. -/
theorem dedupeByUrl_mem (l : List Article) :
    ∀ seen a, a ∈ dedupeByUrl l seen →
      a.url ≠ ("") ∧ a.url ∉ seen ∧
        l.find? (fun b => b.url == a.url) = some a := by
  induction l with
  | nil => intro seen a ha; simp [dedupeByUrl] at ha
  | cons b rest ih =>
    intro seen a ha
    by_cases hc : b.url ≠ ("") ∧ b.url ∉ seen
    · rw [dedupeByUrl, if_pos hc] at ha
      rcases List.mem_cons.mp ha with rfl | ha2
      · refine ⟨hc.1, hc.2, ?_⟩
        rw [List.find?_cons_of_pos _ (by simp)]
      · obtain ⟨h1, h2, h3⟩ := ih (b.url :: seen) a ha2
        have hne : ¬((b.url == a.url) = true) := by
          intro hbeq
          exact h2 (by rw [beq_iff_eq] at hbeq; rw [← hbeq]; exact List.mem_cons_self _ _)
        refine ⟨h1, fun hs => h2 (List.mem_cons_of_mem _ hs), ?_⟩
        rw [find?_cons_false (fun b2 => b2.url == a.url) b rest (Bool.eq_false_iff.mpr hne)]
        exact h3
    · rw [dedupeByUrl, if_neg hc] at ha
      obtain ⟨h1, h2, h3⟩ := ih seen a ha
      push_neg at hc
      have hne : ¬((b.url == a.url) = true) := by
        intro hbeq
        rw [beq_iff_eq] at hbeq
        by_cases hemp : b.url = ("")
        · exact h1 (hbeq ▸ hemp)
        · exact h2 (hbeq ▸ hc hemp)
      exact ⟨h1, h2, by
        rw [find?_cons_false (fun b2 => b2.url == a.url) b rest (Bool.eq_false_iff.mpr hne)]
        exact h3⟩

theorem dedupeByUrl_nodup (l : List Article) :
    ∀ seen, ((dedupeByUrl l seen).map Article.url).Nodup := by
  induction l with
  | nil => intro seen; simp [dedupeByUrl]
  | cons b rest ih =>
    intro seen
    by_cases hc : b.url ≠ ("") ∧ b.url ∉ seen
    · rw [dedupeByUrl, if_pos hc]
      rw [List.map_cons, List.nodup_cons]
      refine ⟨?_, ih (b.url :: seen)⟩
      intro hmem
      obtain ⟨a, ha, hu⟩ := List.mem_map.mp hmem
      obtain ⟨_, h2, _⟩ := dedupeByUrl_mem rest (b.url :: seen) a ha
      exact h2 (by rw [hu]; exact List.mem_cons_self _ _)
    · rw [dedupeByUrl, if_neg hc]
      exact ih seen

theorem insertByDateDesc_pairwise (a : Article) (l : List Article)
    (h : l.Pairwise (fun x y => ¬ x.published_date < y.published_date)) :
    (insertByDateDesc a l).Pairwise (fun x y => ¬ x.published_date < y.published_date) := by
  induction l with
  | nil => simp [insertByDateDesc]
  | cons b rest ih =>
    rw [List.pairwise_cons] at h
    by_cases hc : a.published_date < b.published_date
    · simp only [insertByDateDesc, if_pos hc]
      rw [List.pairwise_cons]
      refine ⟨?_, ih h.2⟩
      intro x hx
      rcases List.mem_cons.mp ((insertByDateDesc_perm a rest).mem_iff.mp hx) with rfl | hx2
      · exact lt_asymm hc
      · exact h.1 x hx2
    · simp only [insertByDateDesc, if_neg hc]
      rw [List.pairwise_cons]
      refine ⟨?_, by rw [List.pairwise_cons]; exact h⟩
      intro x hx
      rcases List.mem_cons.mp hx with rfl | hx2
      · exact hc
      · exact not_lt.mpr (le_trans (not_lt.mp (h.1 x hx2)) (not_lt.mp hc))

theorem sortByDateDesc_pairwise (l : List Article) :
    (sortByDateDesc l).Pairwise (fun x y => ¬ x.published_date < y.published_date) := by
  induction l with
  | nil => simp [sortByDateDesc]
  | cons a rest ih => exact insertByDateDesc_pairwise a _ ih

/-- C6: the merged list of `fetch_all_news` holds each link at most
once, each kept article is the first occurrence of its link in the
source-ordered stream, and the result is sorted by the raw
published-date string in descending lexicographic order (no timestamp
parsing is involved anywhere in the definition). -/
theorem fetch_all_news_dedupe_sort (sources : List Source) :
    ((fetch_all_news sources).map Article.url).Nodup ∧
    (∀ a ∈ fetch_all_news sources,
      ((sources.map fetch_single_feed).flatten).find? (fun b => b.url == a.url) = some a) ∧
    (fetch_all_news sources).Pairwise
      (fun x y => ¬ x.published_date < y.published_date) := by
  refine ⟨?_, ?_, sortByDateDesc_pairwise _⟩
  · exact ((sortByDateDesc_perm _).map Article.url).nodup_iff.mpr (dedupeByUrl_nodup _ [])
  · intro a ha
    exact (dedupeByUrl_mem _ [] a ((sortByDateDesc_perm _).mem_iff.mp ha)).2.2

def sampleEntry : Entry :=
  { title := some ("Rent rises slow"), link := some ("http://example.org/a"),
    published := some ("2024-06-01") }

def sampleSource : Source := { name := ("Example Feed"), fetched := some [sampleEntry] }

def sampleArticle : Article :=
  { title := ("Rent rises slow"), url := ("http://example.org/a"),
    source := ("Example Feed"), published_date := ("2024-06-01"), summary := ("") }

/-- C6 witness: the first-occurrence property applied at a concrete
one-source feed. -/
theorem fetch_all_news_dedupe_sort_witness :
    (([sampleSource].map fetch_single_feed).flatten).find?
      (fun b => b.url == sampleArticle.url) = some sampleArticle :=
  (fetch_all_news_dedupe_sort [sampleSource]).2.1 sampleArticle (by decide)

/-- C10: an entry with a missing link is normalised to an empty-string
url by `_fetch_single_feed` (second conjunct), and `fetch_all_news`
never emits an article with an empty url (first conjunct), so such an
entry is dropped from the merged result rather than deduplicated. -/
theorem fetch_all_news_drops_empty_links :
    (∀ (sources : List Source), ∀ a ∈ fetch_all_news sources, a.url ≠ ("")) ∧
    (∀ (src : Source) (entries : List Entry), src.fetched = some entries →
      (fetch_single_feed src).map Article.url =
        (entries.take 15).map (fun e => e.link.getD (""))) := by
  constructor
  · intro sources a ha
    exact (dedupeByUrl_mem _ [] a ((sortByDateDesc_perm _).mem_iff.mp ha)).1
  · intro src entries hf
    unfold fetch_single_feed
    rw [hf]
    rw [List.map_map]
    rfl

/-- C10 witness: a feed whose only entry has no link contributes nothing
to the merged result, while its normalised url is the empty string. -/
theorem fetch_all_news_drops_empty_links_witness :
    sampleArticle.url ≠ ("") :=
  fetch_all_news_drops_empty_links.1 [sampleSource] sampleArticle (by decide)

/-! ## LinkedIn content pipeline (app/models.py, app/linkedin.py, app/web.py)

The relational store is explicit state: a `DB` carries the
`linkedin_posts` rows (with the autoincrement counter) and the
`linkedin_weeks` rows.  `*.first()` / `.get(pk)` lookups return the
first row matching the filter, and in-place ORM mutation followed by
`commit` is update-of-the-first-matching-row.  Timestamps are integer
seconds. -/

inductive Day where
  | monday | tuesday | wednesday | thursday | friday | saturday | sunday
deriving DecidableEq, Fintype

def DAY_ORDER : List Day :=
  [Day.monday, Day.tuesday, Day.wednesday, Day.thursday, Day.friday, Day.saturday, Day.sunday]

structure PillarInfo where
  name : String
  audiences : List String
  template : String
  stat_categories : List String
deriving DecidableEq

/-- The static pillar configuration (app/linkedin.py lines 12-55). -/
def CONTENT_PILLARS : Day → PillarInfo
  | Day.monday =>
    { name := ("Market Insights"), audiences := [("Property Managers"), ("Landlords")],
      template := ("pain_point_data"),
      stat_categories := [("market_scale"), ("void_periods"), ("renters_rights_act")] }
  | Day.tuesday =>
    { name := ("Product Spotlight"), audiences := [("Property Managers"), ("Real Estate Investors")],
      template := ("product_spotlight"),
      stat_categories := [("referencing"), ("void_periods"), ("tenant_behaviour")] }
  | Day.wednesday =>
    { name := ("Educational Content"), audiences := [("Landlords"), ("Property Managers")],
      template := ("blog_repurpose"),
      stat_categories := [("renters_rights_act"), ("market_scale"), ("tenant_behaviour")] }
  | Day.thursday =>
    { name := ("Partnership & Community"), audiences := [("Industry Partners"), ("Property Managers")],
      template := ("partnership_announcement"),
      stat_categories := [("market_scale"), ("referencing")] }
  | Day.friday =>
    { name := ("Founder Story"), audiences := [("Entrepreneurs"), ("Property Managers")],
      template := ("founder_story"),
      stat_categories := [("market_scale"), ("referencing"), ("void_periods")] }
  | Day.saturday =>
    { name := ("Quick Tips"), audiences := [("Landlords"), ("New Property Managers")],
      template := ("quick_tip"),
      stat_categories := [("void_periods"), ("referencing"), ("tenant_behaviour")] }
  | Day.sunday =>
    { name := ("Recycle & Reflect"), audiences := [("Property Managers"), ("Landlords")],
      template := ("recycle"), stat_categories := [] }

/-- A `linkedin_posts` row (app/models.py lines 51-68) with the column
defaults. -/
structure LinkedInPost where
  id : Nat
  pillar : String
  audience : String
  template_type : String
  content : String
  status : String := ("draft")
  scheduled_date : Option String := none
  scheduled_time : String := ("07:45")
  performance_notes : Option String := none
  is_recyclable : Bool := false
  recycle_count : Int := 0
  parent_post_id : Option Nat := none
  report_id : Option Nat := none
  created_at : Int
deriving DecidableEq

/-- A `linkedin_weeks` row (app/models.py lines 71-83): seven nullable
post references. -/
structure LinkedInWeek where
  week_start : String
  monday_post_id : Option Nat := none
  tuesday_post_id : Option Nat := none
  wednesday_post_id : Option Nat := none
  thursday_post_id : Option Nat := none
  friday_post_id : Option Nat := none
  saturday_post_id : Option Nat := none
  sunday_post_id : Option Nat := none
deriving DecidableEq

structure DB where
  posts : List LinkedInPost
  weeks : List LinkedInWeek
  nextPostId : Nat
deriving DecidableEq

/-- `getattr(week, f"day_post_id")` for a day of `DAY_ORDER`. -/
def getSlot (w : LinkedInWeek) : Day → Option Nat
  | Day.monday => w.monday_post_id
  | Day.tuesday => w.tuesday_post_id
  | Day.wednesday => w.wednesday_post_id
  | Day.thursday => w.thursday_post_id
  | Day.friday => w.friday_post_id
  | Day.saturday => w.saturday_post_id
  | Day.sunday => w.sunday_post_id

/-- `setattr(week, f"day_post_id", v)`. -/
def setSlot (w : LinkedInWeek) : Day → Option Nat → LinkedInWeek
  | Day.monday, v => { w with monday_post_id := v }
  | Day.tuesday, v => { w with tuesday_post_id := v }
  | Day.wednesday, v => { w with wednesday_post_id := v }
  | Day.thursday, v => { w with thursday_post_id := v }
  | Day.friday, v => { w with friday_post_id := v }
  | Day.saturday, v => { w with saturday_post_id := v }
  | Day.sunday, v => { w with sunday_post_id := v }

/-- `db.query(LinkedInWeek).filter_by(week_start=...).first()`. -/
def findWeek (db : DB) (ws : String) : Option LinkedInWeek :=
  db.weeks.find? (fun w => w.week_start == ws)

def newWeek (ws : String) : LinkedInWeek := { week_start := ws }

/-- Mutate the first week row matching `week_start` (the row the ORM
query object points at). -/
def updateWeeksAt (ws : String) (f : LinkedInWeek → LinkedInWeek) :
    List LinkedInWeek → List LinkedInWeek
  | [] => []
  | w :: rest =>
    if w.week_start = ws then f w :: rest else w :: updateWeeksAt ws f rest

def setWeekSlot (db : DB) (ws : String) (day : Day) (v : Option Nat) : DB :=
  { db with weeks := updateWeeksAt ws (fun w => setSlot w day v) db.weeks }

/-- Embedding of `assign_post_to_day` (app/linkedin.py lines 229-239):
get-or-create the week, then write the one named slot. -/
def assign_post_to_day (post_id : Nat) (week_start : String) (day : Day) (db : DB) : DB :=
  match findWeek db week_start with
  | some _ => setWeekSlot db week_start day (some post_id)
  | none =>
    setWeekSlot { db with weeks := db.weeks ++ [newWeek week_start] }
      week_start day (some post_id)

/-- `db.query(LinkedInPost).get(pk)`. -/
def findPost (db : DB) (pid : Nat) : Option LinkedInPost :=
  db.posts.find? (fun p => p.id == pid)

def updatePostsById (tid : Nat) (f : LinkedInPost → LinkedInPost) :
    List LinkedInPost → List LinkedInPost
  | [] => []
  | p :: rest => if p.id = tid then f p :: rest else p :: updatePostsById tid f rest

def updatePost (db : DB) (tid : Nat) (f : LinkedInPost → LinkedInPost) : DB :=
  { db with posts := updatePostsById tid f db.posts }

/-- `db.add(post); db.commit(); db.refresh(post)`: the row is appended
with the autoincrement id, which `refresh` hands back. -/
def addPost (db : DB) (p : LinkedInPost) : DB × Nat :=
  ({ db with
      posts := db.posts ++ [{ p with id := db.nextPostId }]
      nextPostId := db.nextPostId + 1 },
   db.nextPostId)

def seconds_per_day : Int := 86400

/-- Embedding of `get_recyclable_posts` (app/linkedin.py lines 251-264):
`is_recyclable == True`, `recycle_count < 2`, `created_at <= now -
timedelta(days=14)`. -/
def get_recyclable_posts (db : DB) (now : Int) : List LinkedInPost :=
  db.posts.filter (fun p =>
    p.is_recyclable && decide (p.recycle_count < 2) &&
      decide (p.created_at ≤ now - 14 * seconds_per_day))

/-- Embedding of `mark_recyclable` (app/linkedin.py lines 242-248). -/
def mark_recyclable (post_id : Nat) (db : DB) : DB :=
  updatePost db post_id (fun p => { p with is_recyclable := true })

/-- The draft-generation collaborators: `gen pillar audience` is the
value `generate_post_drafts` hands back (LLM call plus tolerant parse,
abstracted at the LLM boundary), `recycle pid` likewise for the reworded
variants of `generate_recycle_post`. -/
structure GenEnv where
  gen : String → String → List String
  recycle : Nat → List String

/-- `generate_recycle_post` (app/linkedin.py lines 373-404): the
original-post lookup with its `[]` fallback is repository logic; the
prompt build and LLM call are the `recycle` oracle. -/
def generate_recycle_post (env : GenEnv) (db : DB) (original_post_id : Nat) : List String :=
  match findPost db original_post_id with
  | none => []
  | some _ => env.recycle original_post_id

/-- The fresh row the ordinary-generation branch creates: pillar,
first-listed audience, the pillar's template, the first draft; the other
columns keep their defaults. -/
def genPost (now : Int) (day : Day) (d0 : String) : LinkedInPost :=
  { id := 0, pillar := (CONTENT_PILLARS day).name,
    audience := (CONTENT_PILLARS day).audiences.headD (""),
    template_type := (CONTENT_PILLARS day).template, content := d0, created_at := now }

/-- The fresh row the Sunday recycle branch creates, linked to the
original via `parent_post_id`. -/
def recPost (now : Int) (day : Day) (origId : Nat) (d0 : String) : LinkedInPost :=
  { id := 0, pillar := (CONTENT_PILLARS day).name,
    audience := (CONTENT_PILLARS day).audiences.headD (""),
    template_type := ("recycle"), content := d0,
    parent_post_id := some origId, created_at := now }

/-- The ordinary-generation tail of a loop iteration of
`generate_week_batch` (app/linkedin.py lines 449-461): add the row, then
write its id into the day's slot. -/
def genericStep (env : GenEnv) (now : Int) (week_start : String) (db : DB) (day : Day) : DB :=
  match env.gen (CONTENT_PILLARS day).name ((CONTENT_PILLARS day).audiences.headD ("")) with
  | [] => db
  | d0 :: _ =>
    setWeekSlot (addPost db (genPost now day d0)).1 week_start day
      (some (addPost db (genPost now day d0)).2)

/-- The Sunday recycle body (app/linkedin.py lines 430-447): create the
variant post linked to the original, fill the slot, then increment the
original's `recycle_count`; an empty draft list falls through to
ordinary generation. -/
def recycleStep (env : GenEnv) (now : Int) (week_start : String) (db : DB) (day : Day)
    (original : LinkedInPost) : DB :=
  match generate_recycle_post env db original.id with
  | [] => genericStep env now week_start db day
  | d0 :: _ =>
    updatePost
      (setWeekSlot (addPost db (recPost now day original.id d0)).1 week_start day
        (some (addPost db (recPost now day original.id d0)).2))
      original.id (fun p => { p with recycle_count := p.recycle_count + 1 })

/-- Sunday: try recycling first (app/linkedin.py lines 426-447); no
eligible post falls through to ordinary generation. -/
def sundayStep (env : GenEnv) (now : Int) (week_start : String) (db : DB) (day : Day) : DB :=
  match get_recyclable_posts db now with
  | [] => genericStep env now week_start db day
  | original :: _ => recycleStep env now week_start db day original

/-- One iteration of the 7-day loop, given the week row. -/
def processDayWeek (env : GenEnv) (now : Int) (week_start : String) (db : DB) (day : Day)
    (week : LinkedInWeek) : DB :=
  match getSlot week day with
  | some _ => db
  | none =>
    if day = Day.sunday then sundayStep env now week_start db day
    else genericStep env now week_start db day

/-- One iteration of the 7-day loop: re-read the week row (the ORM keeps
the held object in sync with the committed state). -/
def processDay (env : GenEnv) (now : Int) (week_start : String) (db : DB) (day : Day) : DB :=
  match findWeek db week_start with
  | none => db
  | some week => processDayWeek env now week_start db day week

/-- The get-or-create prologue shared by `get_or_create_week`,
`assign_post_to_day` and `generate_week_batch`. -/
def getOrCreateWeek (db : DB) (week_start : String) : DB :=
  match findWeek db week_start with
  | some _ => db
  | none => { db with weeks := db.weeks ++ [newWeek week_start] }

/-- Embedding of `generate_week_batch` (app/linkedin.py lines 407-465):
get-or-create the week, run the 7 weekday iterations in `DAY_ORDER`,
return the final state and the week row. -/
def generate_week_batch (env : GenEnv) (now : Int) (week_start : String) (db : DB) :
    DB × Option LinkedInWeek :=
  let db2 := DAY_ORDER.foldl (processDay env now week_start) (getOrCreateWeek db week_start)
  (db2, findWeek db2 week_start)

/-- `linkedin_save_post` (app/web.py lines 285-307): persist a chosen
draft as a fresh row (status and counters at their column defaults). -/
def linkedin_save_post (db : DB) (content pillar audience template_type : String)
    (now : Int) : DB × Nat :=
  addPost db { id := 0, pillar := pillar, audience := audience,
               template_type := template_type, content := content, created_at := now }

/-- The JSON body of the post-update endpoint: presence of each of the
five whitelisted fields (string-valued updates). -/
structure UpdateData where
  content : Option String := none
  status : Option String := none
  scheduled_date : Option String := none
  scheduled_time : Option String := none
  performance_notes : Option String := none
deriving DecidableEq

def applyUpdate (p : LinkedInPost) (d : UpdateData) : LinkedInPost :=
  { p with
    content := d.content.getD p.content
    status := d.status.getD p.status
    scheduled_date :=
      match d.scheduled_date with
      | some v => some v
      | none => p.scheduled_date
    scheduled_time := d.scheduled_time.getD p.scheduled_time
    performance_notes :=
      match d.performance_notes with
      | some v => some v
      | none => p.performance_notes }

/-- `linkedin_update_post` (app/web.py lines 356-369): only the five
whitelisted fields are written. -/
def linkedin_update_post (db : DB) (pid : Nat) (d : UpdateData) : DB :=
  updatePost db pid (fun p => applyUpdate p d)

/-- `linkedin_approve` (app/web.py lines 316-326). -/
def linkedin_approve (db : DB) (pid : Nat) : DB :=
  updatePost db pid (fun p => { p with status := ("approved") })

def removePostById (pid : Nat) : List LinkedInPost → List LinkedInPost
  | [] => []
  | p :: rest => if p.id = pid then rest else p :: removePostById pid rest

def clearSlot (pid : Nat) (v : Option Nat) : Option Nat :=
  if v = some pid then none else v

def clearRefs (pid : Nat) (w : LinkedInWeek) : LinkedInWeek :=
  { w with
    monday_post_id := clearSlot pid w.monday_post_id
    tuesday_post_id := clearSlot pid w.tuesday_post_id
    wednesday_post_id := clearSlot pid w.wednesday_post_id
    thursday_post_id := clearSlot pid w.thursday_post_id
    friday_post_id := clearSlot pid w.friday_post_id
    saturday_post_id := clearSlot pid w.saturday_post_id
    sunday_post_id := clearSlot pid w.sunday_post_id }

/-- `linkedin_reject` (app/web.py lines 328-344): clear any week slot
referencing the post, then delete the row. -/
def linkedin_reject (db : DB) (pid : Nat) : DB :=
  match findPost db pid with
  | none => db
  | some _ =>
    { db with
        weeks := db.weeks.map (clearRefs pid)
        posts := removePostById pid db.posts }

theorem getSlot_setSlot_same (w : LinkedInWeek) (d : Day) (v : Option Nat) :
    getSlot (setSlot w d v) d = v := by
  cases d <;> rfl

theorem getSlot_setSlot_ne (w : LinkedInWeek) (d d' : Day) (v : Option Nat) (h : d' ≠ d) :
    getSlot (setSlot w d v) d' = getSlot w d' := by
  cases d <;> cases d' <;> first | rfl | exact absurd rfl h

theorem setSlot_week_start (w : LinkedInWeek) (d : Day) (v : Option Nat) :
    (setSlot w d v).week_start = w.week_start := by
  cases d <;> rfl

theorem mem_get_recyclable_posts (db : DB) (now : Int) (p : LinkedInPost) :
    p ∈ get_recyclable_posts db now ↔
      p ∈ db.posts ∧ p.is_recyclable = true ∧ p.recycle_count < 2 ∧
        p.created_at ≤ now - 14 * seconds_per_day := by
  unfold get_recyclable_posts
  rw [List.mem_filter]
  simp only [Bool.and_eq_true, decide_eq_true_eq]
  tauto

/-- C4: a post is returned by the recyclable-post query iff it sits in
the store with `is_recyclable = true`, `recycle_count < 2`, and
`created_at` at least 14 days before now (boundary included, as `<=`
against the cutoff); in particular the head of the query result — the
post the Sunday branch of `generate_week_batch` picks — satisfies all
three conditions, so a post failing any one is never selected for
recycling. -/
theorem get_recyclable_posts_eligibility :
    (∀ (db : DB) (now : Int) (p : LinkedInPost),
      p ∈ get_recyclable_posts db now ↔
        p ∈ db.posts ∧ p.is_recyclable = true ∧ p.recycle_count < 2 ∧
          p.created_at ≤ now - 14 * seconds_per_day) ∧
    (∀ (db : DB) (now : Int) (orig : LinkedInPost) (rest : List LinkedInPost),
      get_recyclable_posts db now = orig :: rest →
        orig.is_recyclable = true ∧ orig.recycle_count < 2 ∧
          orig.created_at ≤ now - 14 * seconds_per_day) := by
  refine ⟨mem_get_recyclable_posts, ?_⟩
  intro db now orig rest h
  have hm : orig ∈ get_recyclable_posts db now := by
    rw [h]; exact List.mem_cons_self _ _
  exact ((mem_get_recyclable_posts db now orig).mp hm).2

def rp0 : LinkedInPost :=
  { id := 1, pillar := ("Market Insights"), audience := ("Landlords"),
    template_type := ("pain_point_data"), content := ("An old recyclable post"),
    is_recyclable := true, recycle_count := 1, created_at := 0 }

def dbR : DB := { posts := [rp0], weeks := [], nextPostId := 2 }

/-- C4 witness at a concrete store and clock. -/
theorem get_recyclable_posts_eligibility_witness :
    rp0.is_recyclable = true ∧ rp0.recycle_count < 2 ∧
      rp0.created_at ≤ 2000000 - 14 * seconds_per_day :=
  get_recyclable_posts_eligibility.2 dbR 2000000 rp0 [] (by decide)

theorem getOrCreateWeek_found (db : DB) (ws : String) (w : LinkedInWeek)
    (hfind : findWeek db ws = some w) : getOrCreateWeek db ws = db := by
  unfold getOrCreateWeek
  rw [hfind]

theorem processDay_skip (env : GenEnv) (now : Int) (ws : String) (day : Day) (db : DB)
    (w : LinkedInWeek) (hfind : findWeek db ws = some w) (pid : Nat)
    (hslot : getSlot w day = some pid) :
    processDay env now ws db day = db := by
  unfold processDay
  rw [hfind]
  show processDayWeek env now ws db day w = db
  unfold processDayWeek
  rw [hslot]

theorem foldl_processDay_skip (env : GenEnv) (now : Int) (ws : String) (db : DB)
    (w : LinkedInWeek) (hfind : findWeek db ws = some w)
    (hfilled : ∀ d : Day, (getSlot w d).isSome) :
    ∀ days : List Day, List.foldl (processDay env now ws) db days = db := by
  intro days
  induction days with
  | nil => rfl
  | cons d rest ih =>
    rw [List.foldl_cons]
    obtain ⟨pid, hp⟩ := Option.isSome_iff_exists.mp (hfilled d)
    rw [processDay_skip env now ws d db w hfind pid hp]
    exact ih

/-- C3: on a week whose seven slots are all filled, a run of
`generate_week_batch` leaves the store exactly as it was — no post rows
created, no slot written, no `recycle_count` touched — and returns the
existing week row; so the second of two runs on a fully-filled week
performs zero writes. -/
theorem generate_week_batch_idempotent (env : GenEnv) (now : Int) (week_start : String)
    (db : DB) (w : LinkedInWeek) (hfind : findWeek db week_start = some w)
    (hfilled : ∀ d : Day, (getSlot w d).isSome) :
    generate_week_batch env now week_start db = (db, some w) := by
  unfold generate_week_batch
  rw [getOrCreateWeek_found db week_start w hfind]
  show (List.foldl (processDay env now week_start) db DAY_ORDER,
      findWeek (List.foldl (processDay env now week_start) db DAY_ORDER) week_start) =
    (db, some w)
  rw [foldl_processDay_skip env now week_start db w hfind hfilled DAY_ORDER, hfind]

def wkFull : LinkedInWeek :=
  { week_start := ("2025-01-06"), monday_post_id := some 1, tuesday_post_id := some 2,
    wednesday_post_id := some 3, thursday_post_id := some 4, friday_post_id := some 5,
    saturday_post_id := some 6, sunday_post_id := some 7 }

def dbFull : DB := { posts := [], weeks := [wkFull], nextPostId := 8 }

def env0 : GenEnv := { gen := fun _ _ => [], recycle := fun _ => [] }

/-- C3 witness: a concrete fully-filled week is returned unchanged. -/
theorem generate_week_batch_idempotent_witness :
    generate_week_batch env0 0 ("2025-01-06") dbFull = (dbFull, some wkFull) :=
  generate_week_batch_idempotent env0 0 ("2025-01-06") dbFull wkFull rfl (by decide)

theorem find?_cons_true {α : Type} (p : α → Bool) (x : α) (l : List α)
    (hx : p x = true) : (x :: l).find? p = some x := by
  simp [List.find?, hx]

theorem findWeek_updateWeeksAt (ws : String) (f : LinkedInWeek → LinkedInWeek)
    (hf : ∀ w, (f w).week_start = w.week_start) (l : List LinkedInWeek) :
    (updateWeeksAt ws f l).find? (fun w => w.week_start == ws) =
      (l.find? (fun w => w.week_start == ws)).map f := by
  induction l with
  | nil => rfl
  | cons w rest ih =>
    by_cases hw : w.week_start = ws
    · simp only [updateWeeksAt, if_pos hw]
      rw [find?_cons_true (fun w2 => w2.week_start == ws) (f w) rest
            (by show ((f w).week_start == ws) = true
                rw [hf w]; exact beq_iff_eq.mpr hw),
          find?_cons_true (fun w2 => w2.week_start == ws) w rest (beq_iff_eq.mpr hw)]
      rfl
    · have hb : (w.week_start == ws) = false := beq_eq_false_iff_ne.mpr hw
      simp only [updateWeeksAt, if_neg hw]
      rw [find?_cons_false (fun w2 => w2.week_start == ws) w _ hb,
          find?_cons_false (fun w2 => w2.week_start == ws) w rest hb]
      exact ih

theorem findWeek_setWeekSlot (db : DB) (ws : String) (day : Day) (v : Option Nat)
    (w : LinkedInWeek) (hfind : findWeek db ws = some w) :
    findWeek (setWeekSlot db ws day v) ws = some (setSlot w day v) := by
  unfold setWeekSlot findWeek
  show (updateWeeksAt ws (fun w2 => setSlot w2 day v) db.weeks).find?
      (fun w2 => w2.week_start == ws) = some (setSlot w day v)
  rw [findWeek_updateWeeksAt ws _ (fun w2 => setSlot_week_start w2 day v) db.weeks]
  rw [show db.weeks.find? (fun w2 => w2.week_start == ws) = some w from hfind]
  rfl

theorem mem_updateWeeksAt_of_ne (ws : String) (f : LinkedInWeek → LinkedInWeek) :
    ∀ (l : List LinkedInWeek) (w' : LinkedInWeek), w' ∈ l → w'.week_start ≠ ws →
      w' ∈ updateWeeksAt ws f l := by
  intro l
  induction l with
  | nil => intro w' h _; exact absurd h (List.not_mem_nil _)
  | cons w rest ih =>
    intro w' hmem hne
    rcases List.mem_cons.mp hmem with rfl | h2
    · simp only [updateWeeksAt, if_neg hne]
      exact List.mem_cons_self _ _
    · by_cases hw : w.week_start = ws
      · simp only [updateWeeksAt, if_pos hw]
        exact List.mem_cons_of_mem _ h2
      · simp only [updateWeeksAt, if_neg hw]
        exact List.mem_cons_of_mem _ (ih w' h2 hne)

theorem slot_preserved_setWeekSlot (db : DB) (ws : String) (d day : Day) (v : Option Nat)
    (pid : Nat) (w : LinkedInWeek) (hfind : findWeek db ws = some w)
    (hsl : getSlot w day = some pid) (hne : d ≠ day) :
    ∃ w2, findWeek (setWeekSlot db ws d v) ws = some w2 ∧ getSlot w2 day = some pid :=
  ⟨setSlot w d v, findWeek_setWeekSlot db ws d v w hfind, by
    rw [getSlot_setSlot_ne w d day v (Ne.symm hne)]; exact hsl⟩

theorem genericStep_slot (env : GenEnv) (now : Int) (ws : String) (day : Day) (pid : Nat)
    (d : Day) (db : DB) (w : LinkedInWeek) (hfind : findWeek db ws = some w)
    (hsl : getSlot w day = some pid) (hne : d ≠ day) :
    ∃ w2, findWeek (genericStep env now ws db d) ws = some w2 ∧
      getSlot w2 day = some pid := by
  unfold genericStep
  cases env.gen (CONTENT_PILLARS d).name ((CONTENT_PILLARS d).audiences.headD ("")) with
  | nil => exact ⟨w, hfind, hsl⟩
  | cons d0 ds => exact slot_preserved_setWeekSlot _ ws d day _ pid w hfind hsl hne

theorem recycleStep_slot (env : GenEnv) (now : Int) (ws : String) (day : Day) (pid : Nat)
    (d : Day) (db : DB) (w : LinkedInWeek) (orig : LinkedInPost)
    (hfind : findWeek db ws = some w) (hsl : getSlot w day = some pid) (hne : d ≠ day) :
    ∃ w2, findWeek (recycleStep env now ws db d orig) ws = some w2 ∧
      getSlot w2 day = some pid := by
  unfold recycleStep
  cases generate_recycle_post env db orig.id with
  | nil => exact genericStep_slot env now ws day pid d db w hfind hsl hne
  | cons d0 ds => exact slot_preserved_setWeekSlot _ ws d day _ pid w hfind hsl hne

theorem sundayStep_slot (env : GenEnv) (now : Int) (ws : String) (day : Day) (pid : Nat)
    (d : Day) (db : DB) (w : LinkedInWeek) (hfind : findWeek db ws = some w)
    (hsl : getSlot w day = some pid) (hne : d ≠ day) :
    ∃ w2, findWeek (sundayStep env now ws db d) ws = some w2 ∧
      getSlot w2 day = some pid := by
  unfold sundayStep
  cases get_recyclable_posts db now with
  | nil => exact genericStep_slot env now ws day pid d db w hfind hsl hne
  | cons orig rest => exact recycleStep_slot env now ws day pid d db w orig hfind hsl hne

theorem processDay_slot (env : GenEnv) (now : Int) (ws : String) (day : Day) (pid : Nat)
    (d : Day) (db : DB) (w : LinkedInWeek) (hfind : findWeek db ws = some w)
    (hsl : getSlot w day = some pid) :
    ∃ w2, findWeek (processDay env now ws db d) ws = some w2 ∧
      getSlot w2 day = some pid := by
  unfold processDay
  rw [hfind]
  show ∃ w2, findWeek (processDayWeek env now ws db d w) ws = some w2 ∧
    getSlot w2 day = some pid
  unfold processDayWeek
  cases hs : getSlot w d with
  | some q => exact ⟨w, hfind, hsl⟩
  | none =>
    have hne : d ≠ day := by
      intro hd; rw [hd, hsl] at hs; exact Option.noConfusion hs
    show ∃ w2, findWeek (if d = Day.sunday then sundayStep env now ws db d
        else genericStep env now ws db d) ws = some w2 ∧ getSlot w2 day = some pid
    by_cases hsun : d = Day.sunday
    · rw [if_pos hsun]
      exact sundayStep_slot env now ws day pid d db w hfind hsl hne
    · rw [if_neg hsun]
      exact genericStep_slot env now ws day pid d db w hfind hsl hne

theorem foldl_processDay_slot (env : GenEnv) (now : Int) (ws : String) (day : Day)
    (pid : Nat) :
    ∀ (days : List Day) (db : DB) (w : LinkedInWeek), findWeek db ws = some w →
      getSlot w day = some pid →
      ∃ w2, findWeek (List.foldl (processDay env now ws) db days) ws = some w2 ∧
        getSlot w2 day = some pid := by
  intro days
  induction days with
  | nil => intro db w h1 h2; exact ⟨w, h1, h2⟩
  | cons d rest ih =>
    intro db w h1 h2
    rw [List.foldl_cons]
    obtain ⟨w2, h3, h4⟩ := processDay_slot env now ws day pid d db w h1 h2
    exact ih _ w2 h3 h4

/-- C7: filling one weekday slot never affects another.
`assign_post_to_day` maps the named week to itself with only the named
day's field replaced (first conjunct; `getSlot (setSlot ..) d` is
unchanged for the other six days) and leaves every other week in place
(second conjunct); and every slot write inside the weekly batch touches
only its own day: a slot already holding a post id still holds it in the
week the batch returns (third conjunct). -/
theorem slot_writes_frame :
    (∀ (db : DB) (pid : Nat) (ws : String) (day : Day) (w : LinkedInWeek),
      findWeek db ws = some w →
        findWeek (assign_post_to_day pid ws day db) ws = some (setSlot w day (some pid)) ∧
        ∀ d : Day, d ≠ day → getSlot (setSlot w day (some pid)) d = getSlot w d) ∧
    (∀ (db : DB) (pid : Nat) (ws : String) (day : Day) (w' : LinkedInWeek),
      w' ∈ db.weeks → w'.week_start ≠ ws →
        w' ∈ (assign_post_to_day pid ws day db).weeks) ∧
    (∀ (env : GenEnv) (now : Int) (ws : String) (db : DB) (day : Day) (pid : Nat)
      (w : LinkedInWeek), findWeek db ws = some w → getSlot w day = some pid →
      ∃ w2, (generate_week_batch env now ws db).2 = some w2 ∧
        getSlot w2 day = some pid) := by
  refine ⟨?_, ?_, ?_⟩
  · intro db pid ws day w hfind
    constructor
    · unfold assign_post_to_day
      rw [hfind]
      show findWeek (setWeekSlot db ws day (some pid)) ws = some (setSlot w day (some pid))
      exact findWeek_setWeekSlot db ws day (some pid) w hfind
    · intro d hd
      exact getSlot_setSlot_ne w day d (some pid) hd
  · intro db pid ws day w' hmem hne
    unfold assign_post_to_day
    cases hf : findWeek db ws with
    | some u =>
      show w' ∈ (setWeekSlot db ws day (some pid)).weeks
      exact mem_updateWeeksAt_of_ne ws _ db.weeks w' hmem hne
    | none =>
      show w' ∈ (setWeekSlot { db with weeks := db.weeks ++ [newWeek ws] }
          ws day (some pid)).weeks
      exact mem_updateWeeksAt_of_ne ws _ _ w' (List.mem_append_left _ hmem) hne
  · intro env now ws db day pid w hfind hsl
    unfold generate_week_batch
    rw [getOrCreateWeek_found db ws w hfind]
    show ∃ w2, findWeek (List.foldl (processDay env now ws) db DAY_ORDER) ws = some w2 ∧
      getSlot w2 day = some pid
    exact foldl_processDay_slot env now ws day pid DAY_ORDER db w hfind hsl

/-- C7 witness: assigning post 9 to Monday of a concrete week rewrites
exactly that week row with only the Monday slot replaced. -/
theorem slot_writes_frame_witness :
    findWeek (assign_post_to_day 9 ("2025-01-06") Day.monday dbFull) ("2025-01-06") =
      some (setSlot wkFull Day.monday (some 9)) :=
  (slot_writes_frame.1 dbFull 9 ("2025-01-06") Day.monday wkFull rfl).1

/-! ### The `recycle_count ≤ 2` invariant (C9)

`rcInv` is the invariant; `WF` is store well-formedness (primary keys
unique and below the autoincrement counter), which the SQL engine
guarantees and every embedded operation preserves. -/

def rcInv (db : DB) : Prop := ∀ p ∈ db.posts, p.recycle_count ≤ 2

def WF (db : DB) : Prop :=
  (db.posts.map LinkedInPost.id).Nodup ∧ ∀ p ∈ db.posts, p.id < db.nextPostId

theorem mem_updatePostsById (tid : Nat) (f : LinkedInPost → LinkedInPost) :
    ∀ (l : List LinkedInPost) (q : LinkedInPost), q ∈ updatePostsById tid f l →
      q ∈ l ∨ ∃ p ∈ l, q = f p := by
  intro l
  induction l with
  | nil => intro q h; exact absurd h (List.not_mem_nil _)
  | cons p rest ih =>
    intro q hq
    by_cases hid : p.id = tid
    · simp only [updatePostsById, if_pos hid] at hq
      rcases List.mem_cons.mp hq with rfl | h2
      · exact Or.inr ⟨p, List.mem_cons_self _ _, rfl⟩
      · exact Or.inl (List.mem_cons_of_mem _ h2)
    · simp only [updatePostsById, if_neg hid] at hq
      rcases List.mem_cons.mp hq with rfl | h2
      · exact Or.inl (List.mem_cons_self _ _)
      · rcases ih q h2 with h3 | ⟨p2, h4, h5⟩
        · exact Or.inl (List.mem_cons_of_mem _ h3)
        · exact Or.inr ⟨p2, List.mem_cons_of_mem _ h4, h5⟩

theorem map_id_updatePostsById (tid : Nat) (f : LinkedInPost → LinkedInPost)
    (hf : ∀ p, (f p).id = p.id) :
    ∀ l : List LinkedInPost,
      (updatePostsById tid f l).map LinkedInPost.id = l.map LinkedInPost.id := by
  intro l
  induction l with
  | nil => rfl
  | cons p rest ih =>
    by_cases hid : p.id = tid
    · simp only [updatePostsById, if_pos hid, List.map_cons, hf p]
    · simp only [updatePostsById, if_neg hid, List.map_cons, ih]

/-- With unique primary keys, updating by `orig.id` touches exactly
`orig`: every row of the result is an old row or `f orig`. -/
theorem updatePostsById_of_nodup (f : LinkedInPost → LinkedInPost) :
    ∀ (l : List LinkedInPost) (orig : LinkedInPost),
      (l.map LinkedInPost.id).Nodup → orig ∈ l →
      ∀ q ∈ updatePostsById orig.id f l, q ∈ l ∨ q = f orig := by
  intro l
  induction l with
  | nil => intro orig _ h; exact absurd h (List.not_mem_nil _)
  | cons p rest ih =>
    intro orig hnd hmem q hq
    rw [List.map_cons, List.nodup_cons] at hnd
    by_cases hid : p.id = orig.id
    · have hpo : p = orig := by
        rcases List.mem_cons.mp hmem with h | h
        · exact h.symm
        · exact absurd (show p.id ∈ rest.map LinkedInPost.id by
            rw [hid]; exact List.mem_map_of_mem _ h) hnd.1
      simp only [updatePostsById, if_pos hid] at hq
      rcases List.mem_cons.mp hq with rfl | h2
      · right; rw [hpo]
      · left; exact List.mem_cons_of_mem _ h2
    · have horest : orig ∈ rest := by
        rcases List.mem_cons.mp hmem with h | h
        · exact absurd (by rw [h]) hid
        · exact h
      simp only [updatePostsById, if_neg hid] at hq
      rcases List.mem_cons.mp hq with rfl | h2
      · left; exact List.mem_cons_self _ _
      · rcases ih orig hnd.2 horest q h2 with h3 | h3
        · left; exact List.mem_cons_of_mem _ h3
        · right; exact h3

theorem mem_removePostById (pid : Nat) :
    ∀ (l : List LinkedInPost) (q : LinkedInPost), q ∈ removePostById pid l → q ∈ l := by
  intro l
  induction l with
  | nil => intro q h; exact absurd h (List.not_mem_nil _)
  | cons p rest ih =>
    intro q hq
    by_cases hid : p.id = pid
    · simp only [removePostById, if_pos hid] at hq
      exact List.mem_cons_of_mem _ hq
    · simp only [removePostById, if_neg hid] at hq
      rcases List.mem_cons.mp hq with rfl | h2
      · exact List.mem_cons_self _ _
      · exact List.mem_cons_of_mem _ (ih q h2)

theorem rcInv_addPost (db : DB) (p : LinkedInPost) (h : rcInv db)
    (hp : p.recycle_count ≤ 2) : rcInv (addPost db p).1 := by
  intro q hq
  rcases List.mem_append.mp hq with h1 | h1
  · exact h q h1
  · rw [List.mem_singleton] at h1
    subst h1
    exact hp

theorem WF_addPost (db : DB) (p : LinkedInPost) (h : WF db) : WF (addPost db p).1 := by
  constructor
  · show ((db.posts ++ [{ p with id := db.nextPostId }]).map LinkedInPost.id).Nodup
    rw [List.map_append]
    refine List.Nodup.append h.1 (List.nodup_singleton _) ?_
    intro x hx hx2
    rw [List.map_singleton, List.mem_singleton] at hx2
    have hxid : x = db.nextPostId := hx2
    obtain ⟨q, hq, hqid⟩ := List.mem_map.mp hx
    have h2 := h.2 q hq
    omega
  · intro q hq
    rcases List.mem_append.mp hq with h1 | h1
    · exact Nat.lt_succ_of_lt (h.2 q h1)
    · rw [List.mem_singleton] at h1
      subst h1
      exact Nat.lt_succ_self _

theorem WF_updatePost (db : DB) (tid : Nat) (f : LinkedInPost → LinkedInPost)
    (hf : ∀ p, (f p).id = p.id) (h : WF db) : WF (updatePost db tid f) := by
  constructor
  · show ((updatePostsById tid f db.posts).map LinkedInPost.id).Nodup
    rw [map_id_updatePostsById tid f hf db.posts]
    exact h.1
  · intro q hq
    rcases mem_updatePostsById tid f db.posts q hq with h1 | ⟨p2, h2, rfl⟩
    · exact h.2 q h1
    · show (f p2).id < db.nextPostId
      rw [hf p2]
      exact h.2 p2 h2

theorem rcInv_updatePost (db : DB) (tid : Nat) (f : LinkedInPost → LinkedInPost)
    (hf : ∀ p, (f p).recycle_count = p.recycle_count) (h : rcInv db) :
    rcInv (updatePost db tid f) := by
  intro q hq
  rcases mem_updatePostsById tid f db.posts q hq with h1 | ⟨p2, h2, rfl⟩
  · exact h q h1
  · rw [hf p2]
    exact h p2 h2

/-- Incrementing the `recycle_count` of a post that satisfies the
query's `recycle_count < 2` filter keeps every count at or below 2. -/
theorem rcInv_recycle_incr (db : DB) (orig : LinkedInPost)
    (hnd : (db.posts.map LinkedInPost.id).Nodup) (hrc : rcInv db)
    (hmem : orig ∈ db.posts) (hlt : orig.recycle_count < 2) :
    rcInv (updatePost db orig.id
      (fun p => { p with recycle_count := p.recycle_count + 1 })) := by
  intro q hq
  rcases updatePostsById_of_nodup _ db.posts orig hnd hmem q hq with h1 | rfl
  · exact hrc q h1
  · show orig.recycle_count + 1 ≤ 2
    omega

theorem WF_setWeekSlot (db : DB) (ws : String) (day : Day) (v : Option Nat)
    (h : WF db) : WF (setWeekSlot db ws day v) := h

theorem rcInv_setWeekSlot (db : DB) (ws : String) (day : Day) (v : Option Nat)
    (h : rcInv db) : rcInv (setWeekSlot db ws day v) := h

theorem genericStep_inv (env : GenEnv) (now : Int) (ws : String) (db : DB) (d : Day)
    (h : WF db ∧ rcInv db) :
    WF (genericStep env now ws db d) ∧ rcInv (genericStep env now ws db d) := by
  unfold genericStep
  cases env.gen (CONTENT_PILLARS d).name ((CONTENT_PILLARS d).audiences.headD ("")) with
  | nil => exact h
  | cons d0 ds =>
    exact ⟨WF_setWeekSlot _ _ _ _ (WF_addPost db _ h.1),
      rcInv_setWeekSlot _ _ _ _ (rcInv_addPost db _ h.2 (by show (0:Int) ≤ 2; decide))⟩

theorem recycleStep_inv (env : GenEnv) (now : Int) (ws : String) (db : DB) (d : Day)
    (orig : LinkedInPost) (h : WF db ∧ rcInv db) (hmem : orig ∈ db.posts)
    (hlt : orig.recycle_count < 2) :
    WF (recycleStep env now ws db d orig) ∧ rcInv (recycleStep env now ws db d orig) := by
  unfold recycleStep
  cases generate_recycle_post env db orig.id with
  | nil => exact genericStep_inv env now ws db d h
  | cons d0 ds =>
    constructor
    · exact WF_updatePost _ orig.id _ (fun p => rfl)
        (WF_setWeekSlot _ _ _ _ (WF_addPost db _ h.1))
    · exact rcInv_recycle_incr _ orig (WF_addPost db _ h.1).1
        (rcInv_setWeekSlot _ _ _ _ (rcInv_addPost db _ h.2 (by show (0:Int) ≤ 2; decide)))
        (List.mem_append_left _ hmem) hlt

theorem processDay_inv (env : GenEnv) (now : Int) (ws : String) (d : Day) (db : DB)
    (h : WF db ∧ rcInv db) :
    WF (processDay env now ws db d) ∧ rcInv (processDay env now ws db d) := by
  unfold processDay
  cases hf : findWeek db ws with
  | none => exact h
  | some week =>
    show WF (processDayWeek env now ws db d week) ∧ rcInv (processDayWeek env now ws db d week)
    unfold processDayWeek
    cases hs : getSlot week d with
    | some q => exact h
    | none =>
      show WF (if d = Day.sunday then sundayStep env now ws db d
          else genericStep env now ws db d) ∧
        rcInv (if d = Day.sunday then sundayStep env now ws db d
          else genericStep env now ws db d)
      by_cases hsun : d = Day.sunday
      · rw [if_pos hsun]
        unfold sundayStep
        cases hr : get_recyclable_posts db now with
        | nil => exact genericStep_inv env now ws db d h
        | cons orig rest =>
          have horig : orig ∈ get_recyclable_posts db now := by
            rw [hr]; exact List.mem_cons_self _ _
          have hconds := (mem_get_recyclable_posts db now orig).mp horig
          exact recycleStep_inv env now ws db d orig h hconds.1 hconds.2.2.1
      · rw [if_neg hsun]
        exact genericStep_inv env now ws db d h

theorem foldl_processDay_inv (env : GenEnv) (now : Int) (ws : String) :
    ∀ (days : List Day) (db : DB), WF db ∧ rcInv db →
      WF (List.foldl (processDay env now ws) db days) ∧
        rcInv (List.foldl (processDay env now ws) db days) := by
  intro days
  induction days with
  | nil => intro db h; exact h
  | cons d rest ih =>
    intro db h
    rw [List.foldl_cons]
    exact ih _ (processDay_inv env now ws d db h)

theorem getOrCreateWeek_inv (db : DB) (ws : String) (h : WF db ∧ rcInv db) :
    WF (getOrCreateWeek db ws) ∧ rcInv (getOrCreateWeek db ws) := by
  unfold getOrCreateWeek
  cases hf : findWeek db ws with
  | some u => exact h
  | none => exact h

theorem generate_week_batch_rcInv (env : GenEnv) (now : Int) (ws : String) (db : DB)
    (h : WF db ∧ rcInv db) : rcInv (generate_week_batch env now ws db).1 := by
  unfold generate_week_batch
  exact (foldl_processDay_inv env now ws DAY_ORDER (getOrCreateWeek db ws)
    (getOrCreateWeek_inv db ws h)).2

/-- C9: on a well-formed store (unique primary keys below the
autoincrement counter) every operation of the codebase preserves
`recycle_count ≤ 2` for every post: the weekly batch — whose Sunday
branch is the only code path incrementing `recycle_count`, and does so
only on the head of `get_recyclable_posts`, filtered by
`recycle_count < 2` — plus save, the whitelisted-field update, approve,
reject, assign, and mark-recyclable, none of which writes the counter. -/
theorem recycle_count_bounded :
    (∀ (env : GenEnv) (now : Int) (ws : String) (db : DB),
      WF db → rcInv db → rcInv (generate_week_batch env now ws db).1) ∧
    (∀ (db : DB) (content pillar audience template_type : String) (now : Int),
      rcInv db → rcInv (linkedin_save_post db content pillar audience template_type now).1) ∧
    (∀ (db : DB) (pid : Nat) (d : UpdateData),
      rcInv db → rcInv (linkedin_update_post db pid d)) ∧
    (∀ (db : DB) (pid : Nat), rcInv db → rcInv (linkedin_approve db pid)) ∧
    (∀ (db : DB) (pid : Nat), rcInv db → rcInv (linkedin_reject db pid)) ∧
    (∀ (db : DB) (pid : Nat) (ws : String) (day : Day),
      rcInv db → rcInv (assign_post_to_day pid ws day db)) ∧
    (∀ (db : DB) (pid : Nat), rcInv db → rcInv (mark_recyclable pid db)) := by
  refine ⟨?_, ?_, ?_, ?_, ?_, ?_, ?_⟩
  · intro env now ws db h1 h2
    exact generate_week_batch_rcInv env now ws db ⟨h1, h2⟩
  · intro db content pillar audience template_type now h
    unfold linkedin_save_post
    exact rcInv_addPost db _ h (by show (0:Int) ≤ 2; decide)
  · intro db pid d h
    exact rcInv_updatePost db pid _ (fun p => rfl) h
  · intro db pid h
    exact rcInv_updatePost db pid _ (fun p => rfl) h
  · intro db pid h
    unfold linkedin_reject
    cases hf : findPost db pid with
    | none => exact h
    | some q =>
      intro p hp
      exact h p (mem_removePostById pid db.posts p hp)
  · intro db pid ws day h
    unfold assign_post_to_day
    cases hf : findWeek db ws with
    | some u => exact h
    | none => exact h
  · intro db pid h
    exact rcInv_updatePost db pid _ (fun p => rfl) h

def envR : GenEnv :=
  { gen := fun _ _ => [("generated draft")], recycle := fun _ => [("reworded draft")] }

def wkEmpty : LinkedInWeek := { week_start := ("2025-01-06") }

def dbR2 : DB := { posts := [rp0], weeks := [wkEmpty], nextPostId := 2 }

/-- C9 witness: a full batch run over an empty week with one eligible
recyclable post (so the Sunday increment fires) keeps every
`recycle_count` at or below 2. -/
theorem recycle_count_bounded_witness :
    rcInv (generate_week_batch envR 2000000 ("2025-01-06") dbR2).1 :=
  recycle_count_bounded.1 envR 2000000 ("2025-01-06") dbR2
    (by
      show (dbR2.posts.map LinkedInPost.id).Nodup ∧ ∀ p ∈ dbR2.posts, p.id < dbR2.nextPostId
      exact ⟨by decide, by decide⟩)
    (by
      show ∀ p ∈ dbR2.posts, p.recycle_count ≤ 2
      decide)

/-! ## Markdown-to-HTML renderer (app/report.py lines 86-156)

`_md_to_html` splits on newlines, tracks a single `in_list` flag, and
emits one HTML line per input line (plus `</ul>` closers); `_inline_md`
applies the three `re.sub` passes for bold, italic and links.  The
regex engine's leftmost, lazy (`(.+?)`), backtracking behaviour is
implemented character by character; `.` does not match a newline. -/

/-- Python `str.strip()`.  `Char.isWhitespace` covers space, tab, CR
and LF; Python also strips the rarer vertical-tab/form-feed/Unicode
spaces, which no claim input contains. -/
def pyStrip (s : String) : String :=
  ⟨((s.data.dropWhile Char.isWhitespace).reverse.dropWhile Char.isWhitespace).reverse⟩

def pyStartsWith (s pre : String) : Bool := pre.data.isPrefixOf s.data

def pyDrop (s : String) (n : Nat) : String := ⟨s.data.drop n⟩

def splitNl : List Char → List (List Char)
  | [] => [[]]
  | c :: rest =>
    if c = '\n' then [] :: splitNl rest
    else
      match splitNl rest with
      | [] => [[c]]
      | h :: t => (c :: h) :: t

def pyLines (s : String) : List String := (splitNl s.data).map fun l => ⟨l⟩

def joinNl : List String → String
  | [] => ("")
  | [x] => x
  | x :: rest => x ++ ("\n") ++ joinNl rest

/-- The lazy close of `(.+?)` followed by `pat`: the first occurrence of
`pat` at distance at least one, with every skipped character matched by
`.` (so not a newline).  `acc` holds the reversed inner span so far. -/
def scanClose (pat : List Char) : Nat → List Char → List Char → Option (List Char × List Char)
  | 0, _, _ => none
  | fuel+1, acc, l =>
    if pat.isPrefixOf l then some (acc.reverse, l.drop pat.length)
    else
      match l with
      | [] => none
      | c :: rest => if c = '\n' then none else scanClose pat fuel (c :: acc) rest

def findInner (pat : List Char) (l : List Char) : Option (List Char × List Char) :=
  match l with
  | [] => none
  | c :: rest => if c = '\n' then none else scanClose pat rest.length.succ [c] rest

def strongOpen : List Char := ("<strong>").data

def strongClose : List Char := ("</strong>").data

def emOpen : List Char := ("<em>").data

def emClose : List Char := ("</em>").data

/-- `re.sub(r"\*\*(.+?)\*\*", r"<strong>\1</strong>", text)`: scan left
to right; at a `**` opener take the lazily-first closer, else the
scanner advances one character. -/
def subBold : Nat → List Char → List Char
  | 0, l => l
  | fuel+1, l =>
    match l with
    | [] => []
    | '*' :: '*' :: rest =>
      match findInner (['*', '*']) rest with
      | some (inner, after) => strongOpen ++ inner ++ strongClose ++ subBold fuel after
      | none => '*' :: subBold fuel ('*' :: rest)
    | c :: rest => c :: subBold fuel rest

def subItalic : Nat → List Char → List Char
  | 0, l => l
  | fuel+1, l =>
    match l with
    | [] => []
    | '*' :: rest =>
      match findInner (['*']) rest with
      | some (inner, after) => emOpen ++ inner ++ emClose ++ subItalic fuel after
      | none => '*' :: subItalic fuel rest
    | c :: rest => c :: subItalic fuel rest

/-- The label/url hunt of `\[(.+?)\]\((.+?)\)` after the opening `[`:
at each `](` with a nonempty label so far, try the lazy `)`-close for
the url; on failure the label absorbs the `]` and the hunt goes on
(regex backtracking). -/
def findLinkAux : Nat → List Char → List Char → Option (List Char × List Char × List Char)
  | 0, _, _ => none
  | fuel+1, acc, l =>
    match l with
    | ']' :: '(' :: rest =>
      if acc.isEmpty then findLinkAux fuel (']' :: acc) ('(' :: rest)
      else
        match findInner ([')']) rest with
        | some (url, after) => some (acc.reverse, url, after)
        | none => findLinkAux fuel (']' :: acc) ('(' :: rest)
    | c :: rest => if c = '\n' then none else findLinkAux fuel (c :: acc) rest
    | [] => none

def linkPre : List Char := ("<a href=\"").data

def linkMid : List Char := ("\" style=\"color:#4A90D9\">").data

def linkSuf : List Char := ("</a>").data

def subLink : Nat → List Char → List Char
  | 0, l => l
  | fuel+1, l =>
    match l with
    | [] => []
    | '[' :: rest =>
      match findLinkAux rest.length.succ [] rest with
      | some (label, url, after) =>
        linkPre ++ url ++ linkMid ++ label ++ linkSuf ++ subLink fuel after
      | none => '[' :: subLink fuel rest
    | c :: rest => c :: subLink fuel rest

/-- Embedding of `_inline_md` (app/report.py lines 150-156): bold, then
italic, then links. -/
def inline_md (s : String) : String :=
  let b := subBold s.data.length s.data
  let i := subItalic b.length b
  ⟨subLink i.length i⟩

def ulOpen : String := "<ul style=\"padding-left:20px;margin:8px 0;\">"

def ulClose : String := "</ul>"

def brLine : String := "<br>"

def h3Line (c : String) : String :=
  ("<h3 style=\"color:#2c3e50;font-size:16px;margin:16px 0 8px;\">") ++ c ++ ("</h3>")

def h2Line (c : String) : String :=
  ("<h2 style=\"color:#2c3e50;font-size:18px;margin:20px 0 10px;border-bottom:1px solid #eee;padding-bottom:6px;\">")
    ++ c ++ ("</h2>")

def h1Line (c : String) : String :=
  ("<h1 style=\"color:#2c3e50;font-size:22px;margin:20px 0 10px;\">") ++ c ++ ("</h1>")

def liLine (c : String) : String :=
  ("<li style=\"margin-bottom:6px;line-height:1.5;\">") ++ c ++ ("</li>")

def pLine (c : String) : String :=
  ("<p style=\"margin:8px 0;line-height:1.5;\">") ++ c ++ ("</p>")

/-- `re.match(r"^[-*]\s", stripped)`; `\s` is modelled by
`Char.isWhitespace` (space/tab/CR/LF). -/
def matchBullet (l : List Char) : Bool :=
  match l with
  | c1 :: c2 :: _ => (c1 = '-' || c1 = '*') && c2.isWhitespace
  | _ => false

/-- Length of a `^\d+\.\s` marker (digits, dot, one whitespace), when
present; `\d+` is effectively greedy-only since a shorter digit run
cannot be followed by the dot. -/
def numMarkLen (l : List Char) : Option Nat :=
  let ds := l.takeWhile Char.isDigit
  if ds.isEmpty then none
  else
    match l.drop ds.length with
    | '.' :: c :: _ => if c.isWhitespace then some (ds.length + 2) else none
    | _ => none

def isListLine (l : List Char) : Bool := matchBullet l || (numMarkLen l).isSome

/-- `re.sub(r"^[-*]\s|^\d+\.\s", "", stripped)`: remove the one anchored
marker when present. -/
def stripListMarker (l : List Char) : List Char :=
  if matchBullet l then l.drop 2
  else
    match numMarkLen l with
    | some n => l.drop n
    | none => l

/-- The line loop of `_md_to_html` (app/report.py lines 90-146) with the
trailing `</ul>` closer folded into the base case. -/
def mdLoop : List String → Bool → List String
  | [], inList => if inList then [ulClose] else []
  | line :: rest, inList =>
    let stripped := pyStrip line
    if stripped = ("") then
      (if inList then [ulClose] else []) ++ [brLine] ++ mdLoop rest false
    else if pyStartsWith stripped ("### ") then
      (if inList then [ulClose] else []) ++ [h3Line (inline_md (pyDrop stripped 4))] ++
        mdLoop rest false
    else if pyStartsWith stripped ("## ") then
      (if inList then [ulClose] else []) ++ [h2Line (inline_md (pyDrop stripped 3))] ++
        mdLoop rest false
    else if pyStartsWith stripped ("# ") then
      (if inList then [ulClose] else []) ++ [h1Line (inline_md (pyDrop stripped 2))] ++
        mdLoop rest false
    else if isListLine stripped.data then
      (if inList then [] else [ulOpen]) ++
        [liLine (inline_md ⟨stripListMarker stripped.data⟩)] ++ mdLoop rest true
    else
      (if inList then [ulClose] else []) ++ [pLine (inline_md stripped)] ++ mdLoop rest false

/-- Embedding of `_md_to_html`: the emitted lines joined by newlines. -/
def md_to_html (text : String) : String := joinNl (mdLoop (pyLines text) false)

theorem ne_of_take2 (s t : String) (a b : List Char)
    (hs : s.data.take 2 = a) (ht : t.data.take 2 = b) (hab : a ≠ b) : s ≠ t := by
  intro he
  exact hab (by rw [← hs, ← ht, he])

theorem h3Line_ne_ulOpen (c : String) : h3Line c ≠ ulOpen :=
  ne_of_take2 _ _ (['<', 'h']) (['<', 'u']) rfl rfl (by decide)

theorem h3Line_ne_ulClose (c : String) : h3Line c ≠ ulClose :=
  ne_of_take2 _ _ (['<', 'h']) (['<', '/']) rfl rfl (by decide)

theorem h2Line_ne_ulOpen (c : String) : h2Line c ≠ ulOpen :=
  ne_of_take2 _ _ (['<', 'h']) (['<', 'u']) rfl rfl (by decide)

theorem h2Line_ne_ulClose (c : String) : h2Line c ≠ ulClose :=
  ne_of_take2 _ _ (['<', 'h']) (['<', '/']) rfl rfl (by decide)

theorem h1Line_ne_ulOpen (c : String) : h1Line c ≠ ulOpen :=
  ne_of_take2 _ _ (['<', 'h']) (['<', 'u']) rfl rfl (by decide)

theorem h1Line_ne_ulClose (c : String) : h1Line c ≠ ulClose :=
  ne_of_take2 _ _ (['<', 'h']) (['<', '/']) rfl rfl (by decide)

theorem liLine_ne_ulOpen (c : String) : liLine c ≠ ulOpen :=
  ne_of_take2 _ _ (['<', 'l']) (['<', 'u']) rfl rfl (by decide)

theorem liLine_ne_ulClose (c : String) : liLine c ≠ ulClose :=
  ne_of_take2 _ _ (['<', 'l']) (['<', '/']) rfl rfl (by decide)

theorem pLine_ne_ulOpen (c : String) : pLine c ≠ ulOpen :=
  ne_of_take2 _ _ (['<', 'p']) (['<', 'u']) rfl rfl (by decide)

theorem pLine_ne_ulClose (c : String) : pLine c ≠ ulClose :=
  ne_of_take2 _ _ (['<', 'p']) (['<', '/']) rfl rfl (by decide)

theorem count_single_self (a : String) : ([a] : List String).count a = 1 := by simp

theorem count_single_ne (a b : String) (h : b ≠ a) : ([b] : List String).count a = 0 := by
  rw [List.count_eq_zero]
  intro hmem
  rw [List.mem_singleton] at hmem
  exact h hmem.symm

/-- A loop iteration that closes any open list and emits one non-`ul`
line keeps the open/close ledger balanced. -/
theorem balance_seg_close (pre : List String) (L : String) (rec : List String) (b : Bool)
    (hpre : pre = if b then [ulClose] else [])
    (hL1 : L ≠ ulOpen) (hL2 : L ≠ ulClose)
    (hrec : rec.count ulClose = rec.count ulOpen) :
    (pre ++ [L] ++ rec).count ulClose =
      (pre ++ [L] ++ rec).count ulOpen + (if b then 1 else 0) := by
  subst hpre
  cases b <;>
    simp [List.count_append, List.count_cons, beq_iff_eq, Ne.symm hL1, Ne.symm hL2,
      (by decide : ulOpen ≠ ulClose), (by decide : ulClose ≠ ulOpen), hrec]

/-- A list-item iteration (opening the list when needed) leaves exactly
one more close than open pending in the recursive tail. -/
theorem balance_seg_li (pre : List String) (L : String) (rec : List String) (b : Bool)
    (hpre : pre = if b then [] else [ulOpen])
    (hL1 : L ≠ ulOpen) (hL2 : L ≠ ulClose)
    (hrec : rec.count ulClose = rec.count ulOpen + 1) :
    (pre ++ [L] ++ rec).count ulClose =
      (pre ++ [L] ++ rec).count ulOpen + (if b then 1 else 0) := by
  subst hpre
  cases b <;>
    simp [List.count_append, List.count_cons, beq_iff_eq, Ne.symm hL1, Ne.symm hL2,
      (by decide : ulOpen ≠ ulClose), (by decide : ulClose ≠ ulOpen), hrec]

theorem mdLoop_balance : ∀ (lines : List String) (inList : Bool),
    (mdLoop lines inList).count ulClose =
      (mdLoop lines inList).count ulOpen + (if inList then 1 else 0) := by
  intro lines
  induction lines with
  | nil =>
    intro inList
    cases inList <;>
      simp [mdLoop, count_single_self, count_single_ne ulOpen ulClose (by decide)]
  | cons line rest ih =>
    intro inList
    have hrec0 : (mdLoop rest false).count ulClose = (mdLoop rest false).count ulOpen := by
      have := ih false
      simpa using this
    have hrec1 : (mdLoop rest true).count ulClose = (mdLoop rest true).count ulOpen + 1 := by
      have := ih true
      simpa using this
    simp only [mdLoop]
    by_cases h1 : pyStrip line = ("")
    · rw [if_pos h1]
      exact balance_seg_close _ _ _ inList rfl (by decide) (by decide) hrec0
    · rw [if_neg h1]
      by_cases h2 : pyStartsWith (pyStrip line) ("### ") = true
      · rw [if_pos h2]
        exact balance_seg_close _ _ _ inList rfl (h3Line_ne_ulOpen _) (h3Line_ne_ulClose _) hrec0
      · rw [if_neg h2]
        by_cases h3 : pyStartsWith (pyStrip line) ("## ") = true
        · rw [if_pos h3]
          exact balance_seg_close _ _ _ inList rfl (h2Line_ne_ulOpen _) (h2Line_ne_ulClose _) hrec0
        · rw [if_neg h3]
          by_cases h4 : pyStartsWith (pyStrip line) ("# ") = true
          · rw [if_pos h4]
            exact balance_seg_close _ _ _ inList rfl (h1Line_ne_ulOpen _) (h1Line_ne_ulClose _) hrec0
          · rw [if_neg h4]
            by_cases h5 : isListLine (pyStrip line).data = true
            · rw [if_pos h5]
              exact balance_seg_li _ _ _ inList rfl (liLine_ne_ulOpen _) (liLine_ne_ulClose _) hrec1
            · rw [if_neg h5]
              exact balance_seg_close _ _ _ inList rfl (pLine_ne_ulOpen _) (pLine_ne_ulClose _) hrec0

/-- C8: on the input `"## Title\n- item one\n- item two"` the renderer
emits exactly an `<h2>` line, the `<ul>` opener, the two `<li>` lines,
and the `</ul>` closer (first conjunct); and on every input the emitted
lines carry exactly as many `</ul>` closers as `<ul>` openers — no
dangling open list tag, including when the input ends inside a list
(second conjunct). -/
theorem md_to_html_heading_list :
    (md_to_html ("## Title\n- item one\n- item two") =
      joinNl [h2Line ("Title"), ulOpen, liLine ("item one"), liLine ("item two"), ulClose]) ∧
    (∀ text : String, (mdLoop (pyLines text) false).count ulClose =
      (mdLoop (pyLines text) false).count ulOpen) := by
  constructor
  · rfl
  · intro text
    have := mdLoop_balance (pyLines text) false
    simpa using this

end RapidReport
